import Mathlib

/-!
Shallow embedding of the ARTSy precipitation viewer (src/artsy/main.py) and
proofs about its reactive recomputation pipeline.

The embedding models:
  * the numeric kernel: nearest-index lookup (np.argmin over absolute
    differences), extent-to-index-range conversion, and np.histogram binning
    with the concrete bin edges built at startup;
  * the mutable document state (local_data_source, figure ranges, the
    rgba image source, histogram sources, line source, hover point and info
    data) as one record, with each bokeh callback as a state transformer;
  * the scheduling layer: bokeh timeout/next-tick callbacks, the
    try/except-ValueError deduplication used for debouncing, and the order in
    which scheduled callbacks fire.

Scalar values are rationals: the python floats involved in the claims are
exact decimal constants and the claims are order/arithmetic properties that
do not depend on rounding.  Masked cells of the precipitation raster are
those whose value is below MIN_VAL, exactly as produced by np.ma.masked_less
in load_data.
-/

namespace ARTSy

/-- MIN_VAL (main.py line 24): lower display bound; load_data masks all cells
below this value. -/
def MIN_VAL : ℚ := 0

/-- MAX_VAL (main.py line 25): maximum displayable precipitation level. -/
def MAX_VAL : ℚ := 3

/-- GREY_THRESHOLD (main.py line 26): near-zero threshold below which cells
are not plotted on the map overlay. -/
def GREY_THRESHOLD : ℚ := 1 / 100

/-- levels (main.py line 65): MaxNLocator(nbins=31).tick_values(0, MAX_VAL),
which is the arithmetic progression 0, 0.1, ..., 3.0 (31 ticks, step 0.1). -/
def levels : List ℚ := (List.range 31).map (fun (i : ℕ) => (i : ℚ) / 10)

/-- lev (main.py line 203): np.insert(levels, 1, GREY_THRESHOLD), the edge
array actually passed to np.histogram. -/
def lev : List ℚ := levels.take 1 ++ [GREY_THRESHOLD] ++ levels.drop 1

/-- np.argmin over a list: the index of the first occurrence of the minimum
(np.argmin returns the first index at which the minimum is attained). -/
def argmin : List ℚ → ℕ
  | [] => 0
  | [_] => 0
  | a :: b :: rest =>
    if a ≤ (b :: rest).getD (argmin (b :: rest)) 0 then 0
    else argmin (b :: rest) + 1

/-- np.abs(axis - q).argmin() (main.py lines 197-200 and 290-291): index of
the axis element nearest to the query coordinate. -/
def nearest (A : List ℚ) (q : ℚ) : ℕ := argmin (A.map (fun a => |a - q|))

/-- Index range covering an extent along one axis (main.py lines 197-200):
left_idx = nearest(left), right_idx = nearest(right) + 1, used as a half-open
python slice; the vertical axis uses the same formula with bottom and top. -/
def gridRange (A : List ℚ) (left right : ℚ) : ℕ × ℕ :=
  (nearest A left, nearest A right + 1)

/-- Bin assignment of np.histogram with an explicit increasing edge array:
value v is counted in bin i iff edges[i] <= v < edges[i+1], except that the
last bin also contains its right edge; none means v lies outside
[edges[0], edges[-1]] and is dropped.  np.histogram ignores the mask of a
masked array and bins the underlying data. -/
def binOf : List ℚ → ℚ → Option ℕ
  | [], _ => none
  | [_], _ => none
  | [a, b], v => if a ≤ v ∧ v ≤ b then some 0 else none
  | a :: b :: c :: rest, v =>
    if a ≤ v ∧ v < b then some 0
    else (binOf (b :: c :: rest) v).map (fun i => i + 1)

/-- The counts array of np.histogram(vals, bins=edges): one count per bin. -/
def histCounts (edges : List ℚ) (vals : List ℚ) : List ℕ :=
  (List.range (edges.length - 1)).map
    (fun i => vals.countP (fun v => decide (binOf edges v = some i)))

/-- Identity of a callback registered on the bokeh document.  The wrappers
update_histogram (main.py lines 178-183) and update_data (lines 252-256)
register the module-level coroutine functions directly, so every registration
on one of these channels has the same identity; move_click_marker (lines
275-279) registers partial(_move_click_marker, event), a fresh callable object
on every call, modelled by the event payload plus a nonce distinct from every
pending callback. -/
inductive Callback
  | histogramCb
  | dataCb
  | clickCb (event : ℕ) (nonce : ℕ)
  deriving DecidableEq

/-- doc.add_timeout_callback: registers a callback and raises ValueError when
the same callback object is already pending; this is the behaviour the code
relies on for debouncing. -/
def addTimeoutCallback (pending : List Callback) (cb : Callback) :
    Except Unit (List Callback) :=
  if cb ∈ pending then Except.error () else Except.ok (pending ++ [cb])

/-- Nonce of a callback object (0 for the shared module-level functions). -/
def nonceOf : Callback → ℕ
  | Callback.clickCb _ n => n
  | _ => 0

/-- A nonce strictly larger than that of every pending callback, modelling the
fresh object identity of a newly constructed functools.partial. -/
def freshNonce (pending : List Callback) : ℕ :=
  (pending.map nonceOf).foldr max 0 + 1

/-- update_histogram (main.py lines 178-183): try to register
_update_histogram with a 100 ms timeout; the ValueError raised when it is
already pending is swallowed, silently dropping this request. -/
def update_histogram (pending : List Callback) : List Callback :=
  match addTimeoutCallback pending Callback.histogramCb with
  | Except.ok p => p
  | Except.error _ => pending

/-- update_data (main.py lines 252-256): the same pattern on the data-select
channel, registering _update_data with a 100 ms timeout. -/
def update_data (pending : List Callback) : List Callback :=
  match addTimeoutCallback pending Callback.dataCb with
  | Except.ok p => p
  | Except.error _ => pending

/-- move_click_marker (main.py lines 275-279): registers
partial(_move_click_marker, event) with a 50 ms timeout; the partial is a new
object, so it never equals a pending callback and the except branch is dead. -/
def move_click_marker (event : ℕ) (pending : List Callback) : List Callback :=
  match addTimeoutCallback pending (Callback.clickCb event (freshNonce pending)) with
  | Except.ok p => p
  | Except.error _ => pending

/-- The events of the click tasks that will run once the pending window
expires: every callback still pending fires exactly once. -/
def clickEvents (pending : List Callback) : List ℕ :=
  pending.filterMap (fun cb =>
    match cb with
    | Callback.clickCb ev _ => some ev
    | _ => none)

/-- The three recomputation callbacks scheduled by _update_data
(main.py lines 269-271). -/
inductive PTask
  | updateMapT
  | updateHistogramT
  | moveHistLineT
  deriving DecidableEq

/-- One callback registration: delay 0 stands for add_next_tick_callback and a
positive delay for add_timeout_callback; seq records registration order. -/
structure Scheduled where
  delay : ℕ
  seq : ℕ
  task : PTask
  deriving DecidableEq

/-- The tornado event loop runs registered callbacks in order of expiry time,
with ties resolved in registration order; a next-tick callback (delay 0) runs
before any positive timeout registered in the same turn. -/
def schedLe (a b : Scheduled) : Prop :=
  a.delay < b.delay ∨ (a.delay = b.delay ∧ a.seq ≤ b.seq)

instance schedLe.instDecidable : DecidableRel schedLe := fun _ _ =>
  inferInstanceAs (Decidable (_ ∨ _))

/-- The order in which a batch of registered callbacks fires. -/
def executionOrder (l : List Scheduled) : List PTask :=
  (List.insertionSort schedLe l).map (fun s => s.task)

/-- The mutable document state: local_data_source (raster plus axes plus valid
date), the map figure ranges (the current Extent), the rgba image source, the
histogram vbar tops, the red indicator line, the hover point and the readout
values.  Raster cells hold the underlying value; a cell is masked exactly when
its value is below MIN_VAL, as produced by np.ma.masked_less in load_data. -/
structure ViewState where
  masked_regrid : List (List ℚ)
  xn : List ℚ
  yn : List ℚ
  valid_date : ℕ
  x_range_start : ℚ
  x_range_end : ℚ
  y_range_start : ℚ
  y_range_end : ℚ
  image : List (List (Option ℚ))
  img_x : ℚ
  img_y : ℚ
  img_dw : ℚ
  img_dh : ℚ
  hist_tops : List ℕ
  line_x : Option ℚ
  line_y : ℕ
  hover_x : ℚ
  hover_y : ℚ
  hover_x_idx : ℕ
  hover_y_idx : ℕ
  current_val : Option ℚ
  mean : Option ℚ
  deriving DecidableEq

/-- The two failure modes of the data-loading collaborator. -/
inductive LoadError
  | notFound
  | formatError
  deriving DecidableEq

/-- The tuple returned by load_data (main.py lines 31-46): masked raster,
2D X and Y coordinate grids, and the valid timestamp. -/
structure LoadResult where
  masked_regrid : List (List ℚ)
  X : List (List ℚ)
  Y : List (List ℚ)
  valid_date : ℕ
  deriving DecidableEq

/-- The index sub-range selection of _update_histogram (main.py lines
188-202): the extent is read from the figure ranges, converted to index
ranges along each axis, and used as python slices into the raster. -/
def selectedSubset (st : ViewState) : List (List ℚ) :=
  let xr := gridRange st.xn st.x_range_start st.x_range_end
  let yr := gridRange st.yn st.y_range_start st.y_range_end
  ((st.masked_regrid.drop yr.1).take (yr.2 - yr.1)).map
    (fun row => (row.drop xr.1).take (xr.2 - xr.1))

/-- _update_histogram (main.py lines 187-213): histogram the selected
sub-range with values clipped to MAX_VAL from above (np.histogram bins the
underlying data of the masked array; masked cells hold values below MIN_VAL
and therefore fall below the first edge and are dropped), update the vbar
tops and the line height, and store the masked mean of the unclipped subset.
The masked mean of a selection with no valid cell is the masked constant,
whose float conversion is nan, modelled by none. -/
def update_histogram' (st : ViewState) : ViewState :=
  let vals := (selectedSubset st).flatten
  let counts := histCounts lev (vals.map (fun v => min v MAX_VAL))
  let valid := vals.filter (fun v => decide (MIN_VAL ≤ v))
  { st with hist_tops := counts,
            line_y := counts.foldr max 0,
            mean := if valid.length = 0 then none
                    else some (valid.sum / (valid.length : ℚ)) }

/-- The pixel produced by _update_map for one cell (main.py lines 231-236):
cells below GREY_THRESHOLD (including every masked cell, whose value is below
MIN_VAL ≤ GREY_THRESHOLD) are masked out of the overlay; other cells are
colour-mapped from their value, abstracted here by the value itself. -/
def colorize (regrid : List (List ℚ)) : List (List (Option ℚ)) :=
  regrid.map (fun row => row.map (fun v =>
    if v < GREY_THRESHOLD then none else some v))

/-- _update_map with update_range=False, the path taken for every DataSelect
after startup (main.py lines 224-249): recompute the rgba overlay and its
half-cell-padded bounding box from the current store. -/
def update_map' (st : ViewState) : ViewState :=
  let dx := st.xn.getD 1 0 - st.xn.getD 0 0
  let dy := st.yn.getD 1 0 - st.yn.getD 0 0
  { st with image := colorize st.masked_regrid,
            img_x := st.xn.getD 0 0 - dx / 2,
            img_y := st.yn.getD 0 0 - dy / 2,
            img_dw := st.xn.getD (st.xn.length - 1) 0 - st.xn.getD 0 0 + dx,
            img_dh := st.yn.getD (st.yn.length - 1) 0 - st.yn.getD 0 0 + dy }

/-- The x position given to the histogram indicator line for an unmasked
selected value (main.py lines 307-311); the comparison val == np.nan is
always false and is omitted. -/
def histLineX (v : ℚ) : ℚ :=
  if v ≤ MIN_VAL then MIN_VAL * (105 / 100)
  else if MAX_VAL < v then MAX_VAL * (99 / 100)
  else v

/-- _move_hist_line (main.py lines 299-311): look the selected cell up in the
current raster by the stored hover indices.  An out-of-range index raises
IndexError (modelled by none, aborting the callback).  A masked cell yields
the masked constant: its float conversion is nan (current_val none) and every
comparison against it is falsy, so the masked value itself reaches the line
source (line_x none). -/
def move_hist_line' (st : ViewState) : Option ViewState :=
  match (st.masked_regrid.get? st.hover_y_idx).bind (fun row => row.get? st.hover_x_idx) with
  | none => none
  | some v =>
    if v < MIN_VAL then
      some { st with current_val := none, line_x := none }
    else
      some { st with current_val := some v, line_x := some (histLineX v) }

/-- _move_click_marker (main.py lines 283-295): resolve the clicked
coordinate to the nearest axis indices against the currently loaded axes and
move the marker; the histogram line update is scheduled afterwards. -/
def move_click_marker' (ev_x ev_y : ℚ) (st : ViewState) : ViewState :=
  let x_idx := nearest st.xn ev_x
  let y_idx := nearest st.yn ev_y
  { st with hover_x := st.xn.getD x_idx 0,
            hover_y := st.yn.getD y_idx 0,
            hover_x_idx := x_idx,
            hover_y_idx := y_idx }

/-- _update_data (main.py lines 260-272): look up and load the selected date.
A load failure raises before any assignment, so the document state is
untouched and nothing is scheduled.  On success the store is replaced with
xn = X[0] and yn = Y[:, 0] (no shape validation of any kind), and the three
recomputation callbacks are registered: _update_map on the next tick,
_update_histogram with a 10 ms timeout, _move_hist_line on the next tick. -/
def update_data' (load : Except LoadError LoadResult) (st : ViewState) :
    ViewState × List Scheduled :=
  match load with
  | Except.error _ => (st, [])
  | Except.ok r =>
    ({ st with masked_regrid := r.masked_regrid,
               xn := r.X.headD [],
               yn := r.Y.map (fun row => row.headD 0),
               valid_date := r.valid_date },
     [⟨0, 0, PTask.updateMapT⟩, ⟨10, 1, PTask.updateHistogramT⟩,
      ⟨0, 2, PTask.moveHistLineT⟩])

/-- Run one scheduled recomputation callback.  An IndexError escaping
_move_hist_line aborts that callback; the event loop logs it and the document
state is left as it was. -/
def runTask : PTask → ViewState → ViewState
  | PTask.updateMapT, st => update_map' st
  | PTask.updateHistogramT, st => update_histogram' st
  | PTask.moveHistLineT, st => (move_hist_line' st).getD st

/-- A complete DataSelect pipeline: run _update_data and then the callbacks
it registered, in the order the event loop fires them. -/
def handleDataSelect (load : Except LoadError LoadResult) (st : ViewState) :
    ViewState :=
  match update_data' load st with
  | (st', tasks) => (executionOrder tasks).foldl (fun s t => runTask t s) st'

/-- The raster/axis snapshot a recomputation observes: the contents of
local_data_source. -/
def storeOf (st : ViewState) : List (List ℚ) × List ℚ × List ℚ × ℕ :=
  (st.masked_regrid, st.xn, st.yn, st.valid_date)

/-- A document state with empty sources, used as a base for concrete
scenarios. -/
def blankState : ViewState where
  masked_regrid := []
  xn := []
  yn := []
  valid_date := 0
  x_range_start := 0
  x_range_end := 0
  y_range_start := 0
  y_range_end := 0
  image := []
  img_x := 0
  img_y := 0
  img_dw := 0
  img_dh := 0
  hist_tops := []
  line_x := none
  line_y := 0
  hover_x := 0
  hover_y := 0
  hover_x_idx := 0
  hover_y_idx := 0
  current_val := none
  mean := none

/-- An empty load result. -/
def blankLoad : LoadResult where
  masked_regrid := []
  X := []
  Y := []
  valid_date := 0

/-- A state holding a loaded 1x1 raster with the marker on its only cell. -/
def tinyState : ViewState :=
  { blankState with masked_regrid := [[1]], xn := [0], yn := [0] }

/-- A document state whose y range runs from 1 down to 0 (bottom above top),
which makes the selected row slice of the raster empty. -/
def emptySelectionState : ViewState :=
  { blankState with
      masked_regrid := [[5], [7]]
      xn := [0]
      yn := [0, 1]
      y_range_start := 1
      y_range_end := 0
      mean := some 1 }

/-- A load result whose X axis carries 3 samples while the raster rows have
2 cells: the axis length disagrees with the raster shape. -/
def mismatchedLoad : LoadResult where
  masked_regrid := [[1, 2], [3, 4]]
  X := [[0, 1, 2]]
  Y := [[0], [1]]
  valid_date := 1

/-- A state after a click on cell (3, 3) of a loaded 4x4 raster: the hover
indices stored by _move_click_marker are (3, 3). -/
def staleClickState : ViewState :=
  { blankState with
      masked_regrid := [[1, 1, 1, 1], [1, 1, 1, 1], [1, 1, 1, 1], [1, 1, 1, 1]]
      xn := [0, 1, 2, 3]
      yn := [0, 1, 2, 3]
      hover_x := 3
      hover_y := 3
      hover_x_idx := 3
      hover_y_idx := 3 }

/-- A later load whose raster is only 2x2, smaller than the stale stored
click index. -/
def smallerLoad : LoadResult where
  masked_regrid := [[1, 2], [3, 4]]
  X := [[0, 1], [0, 1]]
  Y := [[0, 0], [1, 1]]
  valid_date := 2

/-! ### Properties of argmin and nearest -/

theorem argmin_lt_length : ∀ (l : List ℚ), l ≠ [] → argmin l < l.length := by
  intro l
  induction l with
  | nil => intro h; exact absurd rfl h
  | cons a t ih =>
    intro _
    cases t with
    | nil => simp [argmin]
    | cons b rest =>
      simp only [argmin]
      split
      · simp
      · have := ih (by simp)
        simpa [Nat.succ_lt_succ_iff] using this

theorem argmin_le : ∀ (l : List ℚ) (k : ℕ), k < l.length →
    l.getD (argmin l) 0 ≤ l.getD k 0 := by
  intro l
  induction l with
  | nil => intro k hk; simp at hk
  | cons a t ih =>
    intro k hk
    cases t with
    | nil =>
      have hk0 : k = 0 := by simpa using Nat.lt_one_iff.mp (by simpa using hk)
      subst hk0
      simp [argmin]
    | cons b rest =>
      simp only [argmin]
      split
      next h =>
        cases k with
        | zero => simp
        | succ k2 =>
          have hk2 : k2 < (b :: rest).length := by simpa using hk
          have hmin := ih k2 hk2
          rw [List.getD_cons_zero, List.getD_cons_succ]
          exact le_trans h hmin
      next h =>
        push_neg at h
        cases k with
        | zero =>
          rw [List.getD_cons_succ, List.getD_cons_zero]
          exact le_of_lt h
        | succ k2 =>
          have hk2 : k2 < (b :: rest).length := by simpa using hk
          rw [List.getD_cons_succ, List.getD_cons_succ]
          exact ih k2 hk2

theorem argmin_first : ∀ (l : List ℚ) (k : ℕ), k < l.length →
    l.getD k 0 ≤ l.getD (argmin l) 0 → argmin l ≤ k := by
  intro l
  induction l with
  | nil => intro k hk; simp at hk
  | cons a t ih =>
    intro k hk hle
    cases t with
    | nil => simp [argmin]
    | cons b rest =>
      by_cases h : a ≤ (b :: rest).getD (argmin (b :: rest)) 0
      · simp only [argmin, if_pos h]
        exact Nat.zero_le _
      · simp only [argmin, if_neg h] at hle ⊢
        cases k with
        | zero =>
          rw [List.getD_cons_zero, List.getD_cons_succ] at hle
          exact absurd hle h
        | succ k2 =>
          have hk2 : k2 < (b :: rest).length := by simpa using hk
          rw [List.getD_cons_succ, List.getD_cons_succ] at hle
          exact Nat.succ_le_succ (ih k2 hk2 hle)

theorem getD_map_abs (A : List ℚ) (q : ℚ) (k : ℕ) (hk : k < A.length) :
    (A.map (fun a => |a - q|)).getD k 0 = |A.getD k 0 - q| := by
  rw [List.getD_eq_getElem?_getD, List.getD_eq_getElem?_getD,
      List.getElem?_eq_getElem (by simpa using hk), List.getElem?_eq_getElem hk]
  simp

theorem nearest_lt_length (A : List ℚ) (q : ℚ) (hA : A ≠ []) :
    nearest A q < A.length := by
  have h := argmin_lt_length (A.map (fun a => |a - q|)) (by simpa using hA)
  simpa [nearest] using h

theorem nearest_min_dist (A : List ℚ) (q : ℚ) (hA : A ≠ []) (j : ℕ)
    (hj : j < A.length) :
    |A.getD (nearest A q) 0 - q| ≤ |A.getD j 0 - q| := by
  have hn : nearest A q < A.length := nearest_lt_length A q hA
  have h := argmin_le (A.map (fun a => |a - q|)) j (by simpa using hj)
  rw [getD_map_abs A q j hj] at h
  rw [getD_map_abs A q (argmin (A.map (fun a => |a - q|)))
      (by simpa [nearest] using hn)] at h
  exact h

theorem nearest_tie_lower (A : List ℚ) (q : ℚ) (j : ℕ) (hj : j < A.length)
    (htie : |A.getD j 0 - q| ≤ |A.getD (nearest A q) 0 - q|) :
    nearest A q ≤ j := by
  by_cases hA : A = []
  · subst hA; simp at hj
  · have hn : nearest A q < A.length := nearest_lt_length A q hA
    have h := argmin_first (A.map (fun a => |a - q|)) j (by simpa using hj)
    apply h
    rw [getD_map_abs A q j hj]
    rw [getD_map_abs A q (argmin (A.map (fun a => |a - q|)))
        (by simpa [nearest] using hn)]
    exact htie

/-- C5: for every monotonically increasing axis and query, the
nearest-index lookup np.abs(axis - q).argmin() returns an index whose
element minimises the absolute distance to the query, with ties broken
toward the lower index; in particular a click at x = 2.4 on the axis
[0, 1, 2, 3] resolves to index 2, not index 3. -/
theorem nearest_min_dist_tie_lower (A : List ℚ) (q : ℚ) (hA : A ≠ [])
    (_hmono : A.Sorted (· < ·)) :
    nearest A q < A.length ∧
    (∀ j, j < A.length → |A.getD (nearest A q) 0 - q| ≤ |A.getD j 0 - q|) ∧
    (∀ j, j < A.length → |A.getD j 0 - q| = |A.getD (nearest A q) 0 - q| →
      nearest A q ≤ j) ∧
    nearest [0, 1, 2, 3] (12 / 5) = 2 := by
  refine ⟨nearest_lt_length A q hA,
          fun j hj => nearest_min_dist A q hA j hj,
          fun j hj htie => nearest_tie_lower A q j hj (le_of_eq htie), ?_⟩
  norm_num [nearest, argmin, List.getD, abs]

/-- Closed instance of C5 at the axis [0, 1, 2, 3] with query 2.4. -/
theorem nearest_min_dist_tie_lower_witness :
    nearest [0, 1, 2, 3] (12 / 5) < ([0, 1, 2, 3] : List ℚ).length ∧
    (∀ j, j < ([0, 1, 2, 3] : List ℚ).length →
      |([0, 1, 2, 3] : List ℚ).getD (nearest [0, 1, 2, 3] (12 / 5)) 0 - 12 / 5| ≤
        |([0, 1, 2, 3] : List ℚ).getD j 0 - 12 / 5|) ∧
    (∀ j, j < ([0, 1, 2, 3] : List ℚ).length →
      |([0, 1, 2, 3] : List ℚ).getD j 0 - 12 / 5| =
        |([0, 1, 2, 3] : List ℚ).getD (nearest [0, 1, 2, 3] (12 / 5)) 0 - 12 / 5| →
      nearest [0, 1, 2, 3] (12 / 5) ≤ j) ∧
    nearest [0, 1, 2, 3] (12 / 5) = 2 :=
  nearest_min_dist_tie_lower [0, 1, 2, 3] (12 / 5) (by simp) (by decide)

/-! ### Extent to index-range conversion -/

theorem sorted_getD_le (A : List ℚ) (hs : A.Sorted (· < ·)) (i j : ℕ)
    (hij : i ≤ j) (hj : j < A.length) : A.getD i 0 ≤ A.getD j 0 := by
  have hi : i < A.length := lt_of_le_of_lt hij hj
  rcases eq_or_lt_of_le hij with rfl | hlt
  · exact le_refl _
  · have h := hs.rel_get_of_lt (a := ⟨i, hi⟩) (b := ⟨j, hj⟩) (by simpa using hlt)
    rw [List.getD_eq_getElem?_getD, List.getD_eq_getElem?_getD,
        List.getElem?_eq_getElem hi, List.getElem?_eq_getElem hj]
    exact le_of_lt (by simpa using h)

theorem sorted_getD_lt (A : List ℚ) (hs : A.Sorted (· < ·)) (i j : ℕ)
    (hij : i < j) (hj : j < A.length) : A.getD i 0 < A.getD j 0 := by
  have hi : i < A.length := lt_trans hij hj
  have h := hs.rel_get_of_lt (a := ⟨i, hi⟩) (b := ⟨j, hj⟩) (by simpa using hij)
  rw [List.getD_eq_getElem?_getD, List.getD_eq_getElem?_getD,
      List.getElem?_eq_getElem hi, List.getElem?_eq_getElem hj]
  simpa using h

/-- A query left of every axis sample clamps to the first index. -/
theorem nearest_of_lt_head (A : List ℚ) (q : ℚ) (hA : A ≠ [])
    (hs : A.Sorted (· < ·)) (hq : q < A.getD 0 0) : nearest A q = 0 := by
  have hlen : nearest A q < A.length := nearest_lt_length A q hA
  have h0 : (0 : ℕ) < A.length := lt_of_le_of_lt (Nat.zero_le _) hlen
  have hmin := nearest_min_dist A q hA 0 h0
  have hmono := sorted_getD_le A hs 0 (nearest A q) (Nat.zero_le _) hlen
  have hq0 : q < A.getD (nearest A q) 0 := lt_of_lt_of_le hq hmono
  rw [abs_of_pos (sub_pos.mpr hq0), abs_of_pos (sub_pos.mpr hq)] at hmin
  have heq : A.getD (nearest A q) 0 = A.getD 0 0 :=
    le_antisymm (by linarith) hmono
  have htie := nearest_tie_lower A q 0 h0 (le_of_eq (by rw [heq]))
  exact Nat.le_zero.mp htie

/-- A query right of every axis sample clamps to the last index. -/
theorem nearest_of_last_lt (A : List ℚ) (q : ℚ) (hA : A ≠ [])
    (hs : A.Sorted (· < ·)) (hq : A.getD (A.length - 1) 0 < q) :
    nearest A q = A.length - 1 := by
  have hlen : nearest A q < A.length := nearest_lt_length A q hA
  have hlast : A.length - 1 < A.length :=
    Nat.sub_lt (lt_of_le_of_lt (Nat.zero_le _) hlen) Nat.one_pos
  have hle : nearest A q ≤ A.length - 1 := Nat.le_pred_of_lt hlen
  have hmin := nearest_min_dist A q hA (A.length - 1) hlast
  have hmono := sorted_getD_le A hs (nearest A q) (A.length - 1) hle hlast
  have hqn : A.getD (nearest A q) 0 < q := lt_of_le_of_lt hmono hq
  rw [abs_of_neg (sub_neg.mpr hqn), abs_of_neg (sub_neg.mpr hq)] at hmin
  have heq : A.getD (nearest A q) 0 = A.getD (A.length - 1) 0 :=
    le_antisymm hmono (by linarith)
  by_contra hne
  have hlt : nearest A q < A.length - 1 := lt_of_le_of_ne hle hne
  exact absurd heq (ne_of_lt (sorted_getD_lt A hs _ _ hlt hlast))

/-- C6: the index range for an extent along one axis is
lo = nearest(left), hi = nearest(right) + 1 (and symmetrically for the
vertical axis, which uses the same formula); the indices stay within the
axis bounds as a half-open slice, and an extent lying entirely outside the
axis range degenerates to the single clamped endpoint index pair. -/
theorem gridRange_in_bounds_and_clamped (A : List ℚ) (left right : ℚ)
    (hA : A ≠ []) (hs : A.Sorted (· < ·)) (hlr : left ≤ right) :
    gridRange A left right = (nearest A left, nearest A right + 1) ∧
    (gridRange A left right).1 < A.length ∧
    (gridRange A left right).2 ≤ A.length ∧
    (right < A.getD 0 0 → gridRange A left right = (0, 1)) ∧
    (A.getD (A.length - 1) 0 < left →
      gridRange A left right = (A.length - 1, A.length)) := by
  refine ⟨rfl, nearest_lt_length A left hA,
          Nat.succ_le_of_lt (nearest_lt_length A right hA), ?_, ?_⟩
  · intro hout
    have hleft : left < A.getD 0 0 := lt_of_le_of_lt hlr hout
    rw [gridRange, nearest_of_lt_head A left hA hs hleft,
        nearest_of_lt_head A right hA hs hout]
  · intro hout
    have hright : A.getD (A.length - 1) 0 < right := lt_of_lt_of_le hout hlr
    rw [gridRange, nearest_of_last_lt A left hA hs hout,
        nearest_of_last_lt A right hA hs hright]
    have hpos : 0 < A.length := List.length_pos.mpr hA
    congr 1
    omega

/-- Closed instance of C6 at the axis [0, 1, 2, 3] with the fully-outside
extent [-2, -1]. -/
theorem gridRange_in_bounds_and_clamped_witness :
    gridRange [0, 1, 2, 3] (-2) (-1) =
      (nearest [0, 1, 2, 3] (-2), nearest [0, 1, 2, 3] (-1) + 1) ∧
    (gridRange [0, 1, 2, 3] (-2) (-1)).1 < ([0, 1, 2, 3] : List ℚ).length ∧
    (gridRange [0, 1, 2, 3] (-2) (-1)).2 ≤ ([0, 1, 2, 3] : List ℚ).length ∧
    ((-1 : ℚ) < ([0, 1, 2, 3] : List ℚ).getD 0 0 →
      gridRange [0, 1, 2, 3] (-2) (-1) = (0, 1)) ∧
    (([0, 1, 2, 3] : List ℚ).getD (([0, 1, 2, 3] : List ℚ).length - 1) 0 < -2 →
      gridRange [0, 1, 2, 3] (-2) (-1) = (([0, 1, 2, 3] : List ℚ).length - 1,
        ([0, 1, 2, 3] : List ℚ).length)) :=
  gridRange_in_bounds_and_clamped [0, 1, 2, 3] (-2) (-1) (by simp) (by decide)
    (by norm_num)

/-! ### Histogram binning -/

theorem levels_eq : levels = (0 : ℚ) ::
    (List.range 30).map (fun (i : ℕ) => ((i : ℚ) + 1) / 10) := by
  have h1 : List.range 31 = 0 :: (List.range 30).map Nat.succ := by
    rw [show (31 : ℕ) = 30 + 1 from rfl, List.range_succ_eq_map]
  rw [levels, h1, List.map_cons, List.map_map]
  congr 1
  · norm_num
  · refine List.map_congr_left ?_
    intro i _
    simp only [Function.comp_apply]
    push_cast
    ring

theorem lev_eq : lev = 0 :: (1 / 100 : ℚ) ::
    (List.range 30).map (fun (i : ℕ) => ((i : ℚ) + 1) / 10) := by
  rw [lev, levels_eq]
  rfl

theorem lev_length : lev.length = 32 := by
  rw [lev_eq]; simp

theorem lev_head : lev.getD 0 0 = 0 := by
  rw [lev_eq]; simp

theorem lev_last : lev.getD (lev.length - 1) 0 = 3 := by
  rw [lev_eq]
  simp [List.getD_eq_getElem?_getD, List.getElem?_map, List.getElem?_range]
  norm_num

theorem chain_le_lev : List.Chain' (· ≤ ·) lev := by
  rw [lev_eq, List.chain'_cons]
  refine ⟨by norm_num, ?_⟩
  have h30 : List.range 30 = 0 :: (List.range 29).map Nat.succ := by
    rw [show (30 : ℕ) = 29 + 1 from rfl, List.range_succ_eq_map]
  refine List.chain'_cons'.mpr ⟨?_, ?_⟩
  · intro y hy
    rw [h30] at hy
    simp only [List.map_cons, List.head?_cons, Option.mem_def,
      Option.some.injEq] at hy
    rw [← hy]
    norm_num
  · rw [List.chain'_map]
    refine (List.chain'_range_succ _ 29).mpr ?_
    intro m _
    gcongr
    exact_mod_cast Nat.le_succ m

theorem binOf_lt : ∀ (edges : List ℚ) (v : ℚ) (i : ℕ),
    binOf edges v = some i → i + 1 < edges.length := by
  intro edges
  induction edges with
  | nil => intro v i h; simp [binOf] at h
  | cons a t ih =>
    intro v i h
    cases t with
    | nil => simp [binOf] at h
    | cons b rest =>
      cases rest with
      | nil =>
        simp only [binOf] at h
        split at h
        · simp only [Option.some.injEq] at h
          simp only [List.length_cons, List.length_nil]
          omega
        · exact absurd h (by simp)
      | cons c rest2 =>
        simp only [binOf] at h
        split at h
        · simp only [Option.some.injEq] at h
          simp only [List.length_cons]
          omega
        · rcases Option.map_eq_some'.mp h with ⟨j, hj, hji⟩
          have := ih v j hj
          simp only [List.length_cons] at this ⊢
          omega

/-- The head of a nonempty chain is at most its last element. -/
theorem chain_le_head_getD_last : ∀ (x : ℚ) (t : List ℚ),
    List.Chain' (· ≤ ·) (x :: t) → x ≤ (x :: t).getD ((x :: t).length - 1) 0 := by
  intro x t
  induction t generalizing x with
  | nil => intro _; simp
  | cons y t2 ih =>
    intro h
    rw [List.chain'_cons] at h
    have h2 := ih y h.2
    refine le_trans h.1 ?_
    simpa using h2

theorem binOf_isSome : ∀ (edges : List ℚ) (v : ℚ),
    List.Chain' (· ≤ ·) edges → 2 ≤ edges.length →
    ((binOf edges v).isSome = true ↔
      edges.getD 0 0 ≤ v ∧ v ≤ edges.getD (edges.length - 1) 0) := by
  intro edges
  induction edges with
  | nil => intro v _ h2; simp at h2
  | cons a t ih =>
    intro v hchain h2
    cases t with
    | nil => simp at h2
    | cons b rest =>
      rw [List.chain'_cons] at hchain
      cases rest with
      | nil =>
        simp only [binOf]
        split
        next h => simpa using h
        next h => simpa using h
      | cons c rest2 =>
        have hlast : (a :: b :: c :: rest2).getD ((a :: b :: c :: rest2).length - 1) 0 =
            (b :: c :: rest2).getD ((b :: c :: rest2).length - 1) 0 := by
          simp [List.getD_cons_succ]
        have hblast : b ≤ (b :: c :: rest2).getD ((b :: c :: rest2).length - 1) 0 :=
          chain_le_head_getD_last b (c :: rest2) hchain.2
        have htail := ih v hchain.2 (by simp)
        rw [hlast]
        simp only [binOf]
        split
        next h =>
          simp only [Option.isSome_some, true_iff]
          rw [List.getD_cons_zero]
          exact ⟨h.1, le_trans (le_of_lt h.2) hblast⟩
        next h =>
          have hmapiso : (Option.map (fun i => i + 1)
              (binOf (b :: c :: rest2) v)).isSome =
              (binOf (b :: c :: rest2) v).isSome := by
            cases binOf (b :: c :: rest2) v <;> rfl
          rw [hmapiso, htail, List.getD_cons_zero, List.getD_cons_zero]
          constructor
          · rintro ⟨hbv, hvl⟩
            exact ⟨le_trans hchain.1 hbv, hvl⟩
          · rintro ⟨hav, hvl⟩
            rcases le_or_lt b v with hbv | hvb
            · exact ⟨hbv, hvl⟩
            · exact absurd ⟨hav, hvb⟩ h

theorem sum_map_range (f : ℕ → ℕ) : ∀ (N : ℕ),
    ((List.range N).map f).sum = ∑ i in Finset.range N, f i := by
  intro N
  induction N with
  | zero => simp
  | succ n ih =>
    rw [List.range_succ, List.map_append, List.sum_append,
        Finset.sum_range_succ, ih]
    simp

/-- The total count of np.histogram over increasing edges is the number of
values lying between the first and last edge. -/
theorem histCounts_sum (edges : List ℚ) (hchain : List.Chain' (· ≤ ·) edges)
    (h2 : 2 ≤ edges.length) : ∀ (vals : List ℚ),
    (histCounts edges vals).sum =
      vals.countP (fun v =>
        decide (edges.getD 0 0 ≤ v ∧ v ≤ edges.getD (edges.length - 1) 0)) := by
  intro vals
  induction vals with
  | nil =>
    simp [histCounts]
  | cons v vs ih =>
    rw [histCounts, sum_map_range] at ih ⊢
    rw [List.countP_cons]
    have hsplit : ∀ i ∈ Finset.range (edges.length - 1),
        (v :: vs).countP (fun w => decide (binOf edges w = some i)) =
          vs.countP (fun w => decide (binOf edges w = some i)) +
            (if binOf edges v = some i then 1 else 0) := by
      intro i _
      rw [List.countP_cons]
      simp
    rw [Finset.sum_congr rfl hsplit, Finset.sum_add_distrib, ih]
    congr 1
    rcases hbin : binOf edges v with _ | j
    · have hout : decide (edges.getD 0 0 ≤ v ∧
          v ≤ edges.getD (edges.length - 1) 0) = false := by
        rw [decide_eq_false_iff_not, ← binOf_isSome edges v hchain h2, hbin]
        simp
      rw [hout]
      simp only [Bool.false_eq_true, if_false]
      refine Finset.sum_eq_zero ?_
      intro i _
      simp
    · have hin : decide (edges.getD 0 0 ≤ v ∧
          v ≤ edges.getD (edges.length - 1) 0) = true := by
        rw [decide_eq_true_eq, ← binOf_isSome edges v hchain h2, hbin]
        simp
      have hjmem : j ∈ Finset.range (edges.length - 1) := by
        have hlt := binOf_lt edges v j hbin
        simp only [Finset.mem_range]
        omega
      rw [hin]
      have hcongr : ∀ i ∈ Finset.range (edges.length - 1),
          (if some j = some i then (1 : ℕ) else 0) =
            (if j = i then 1 else 0) := by
        intro i _
        simp
      rw [Finset.sum_congr rfl hcongr, Finset.sum_ite_eq]
      simp [hjmem]

/-- C7: for every document state (hence for every Extent read from the
figure ranges), the sum of the histogram bin counts computed by
_update_histogram equals the number of non-masked cells of the selected
index sub-range; masked cells (value below MIN_VAL) are excluded, and
clipping to MAX_VAL keeps every non-masked cell inside the edge range. -/
theorem histogram_counts_sum_nonmasked (st : ViewState) :
    (update_histogram' st).hist_tops.sum =
      ((selectedSubset st).flatten.filter (fun v => decide (MIN_VAL ≤ v))).length := by
  have h := histCounts_sum lev chain_le_lev (by rw [lev_length]; norm_num)
    (((selectedSubset st).flatten).map (fun v => min v MAX_VAL))
  rw [show (update_histogram' st).hist_tops =
      histCounts lev (((selectedSubset st).flatten).map (fun v => min v MAX_VAL))
    from rfl, h, List.countP_map, lev_head, lev_last]
  rw [← List.countP_eq_length_filter]
  refine List.countP_congr ?_
  intro v _
  simp only [Function.comp_apply, decide_eq_true_eq, MIN_VAL, MAX_VAL]
  constructor
  · rintro ⟨h0, -⟩
    exact (le_min_iff.mp h0).1
  · intro hv
    exact ⟨le_min_iff.mpr ⟨hv, by norm_num⟩, min_le_right v 3⟩

/-! ### Empty selections -/

theorem histCounts_lev_nil : histCounts lev [] = List.replicate 31 0 := by
  rw [histCounts, lev_length]
  simp [List.map_const']

theorem emptySelectionState_subset : selectedSubset emptySelectionState = [] := by
  have h1 : nearest [0, 1] (1 : ℚ) = 1 := by
    norm_num [nearest, argmin, List.getD, abs]
  have h2 : nearest [0, 1] (0 : ℚ) = 0 := by
    norm_num [nearest, argmin, List.getD, abs]
  have h3 : nearest [0] (0 : ℚ) = 0 := by
    norm_num [nearest, argmin]
  simp [selectedSubset, gridRange, emptySelectionState, blankState, h1, h2, h3]

/-- C8 counterexample: a state whose extent selects an empty sub-range for
which the recomputed mean is not 0 (np.ma turns it into the masked constant,
whose float conversion is nan, modelled by none). -/
theorem empty_selection_mean_not_zero :
    selectedSubset emptySelectionState = [] ∧
    (update_histogram' emptySelectionState).mean ≠ some 0 := by
  refine ⟨emptySelectionState_subset, ?_⟩
  simp [update_histogram', emptySelectionState_subset]

/-- C8 amended: an empty selection is not an error and produces all-zero
counts, but the published mean is nan (none), not 0; no division by zero
occurs because the empty branch never divides. -/
theorem empty_selection_zero_counts_nan_mean (st : ViewState)
    (h : selectedSubset st = []) :
    (update_histogram' st).hist_tops = List.replicate 31 0 ∧
    (update_histogram' st).mean = none := by
  constructor
  · simp [update_histogram', h, histCounts_lev_nil]
  · simp [update_histogram', h]

/-- Closed instance of the amended C8 at a concrete flipped-extent state. -/
theorem empty_selection_zero_counts_nan_mean_witness :
    (update_histogram' emptySelectionState).hist_tops = List.replicate 31 0 ∧
    (update_histogram' emptySelectionState).mean = none :=
  empty_selection_zero_counts_nan_mean emptySelectionState
    emptySelectionState_subset

/-! ### The debounce layer -/

theorem nonce_le_foldr_max : ∀ (l : List ℕ) (x : ℕ), x ∈ l → x ≤ l.foldr max 0 := by
  intro l
  induction l with
  | nil => intro x hx; simp at hx
  | cons a t ih =>
    intro x hx
    simp only [List.foldr_cons]
    rcases List.mem_cons.mp hx with rfl | hx2
    · exact le_max_left _ _
    · exact le_trans (ih x hx2) (le_max_right _ _)

theorem clickCb_fresh_not_mem (pending : List Callback) (ev : ℕ) :
    Callback.clickCb ev (freshNonce pending) ∉ pending := by
  intro hmem
  have h := nonce_le_foldr_max (pending.map nonceOf)
    (nonceOf (Callback.clickCb ev (freshNonce pending)))
    (List.mem_map_of_mem _ hmem)
  simp only [nonceOf] at h
  rw [freshNonce] at h
  omega

theorem update_histogram_mem (p : List Callback) :
    Callback.histogramCb ∈ update_histogram p := by
  by_cases h : Callback.histogramCb ∈ p
  · simp [update_histogram, addTimeoutCallback, h]
  · simp [update_histogram, addTimeoutCallback, h]

theorem update_data_mem (p : List Callback) :
    Callback.dataCb ∈ update_data p := by
  by_cases h : Callback.dataCb ∈ p
  · simp [update_data, addTimeoutCallback, h]
  · simp [update_data, addTimeoutCallback, h]

theorem update_histogram_of_mem (q : List Callback)
    (h : Callback.histogramCb ∈ q) : update_histogram q = q := by
  simp [update_histogram, addTimeoutCallback, h]

theorem update_data_of_mem (q : List Callback)
    (h : Callback.dataCb ∈ q) : update_data q = q := by
  simp [update_data, addTimeoutCallback, h]

/-- C1 counterexample: two clicks scheduled inside one 50 ms window are two
distinct partial objects, so deduplication never fires and both tasks run,
each with its own event; the earlier task is not superseded and the channel
sees two executions, not one. -/
theorem click_channel_runs_both_tasks :
    clickEvents (move_click_marker 20 (move_click_marker 10 [])) = [10, 20] ∧
    (clickEvents (move_click_marker 20 (move_click_marker 10 []))).length ≠ 1 := by
  constructor <;>
    simp [move_click_marker, addTimeoutCallback, freshNonce, nonceOf, clickEvents]

/-- C1 amended: on the viewport-histogram and data-select channels the
scheduled callback is one shared function object, so a second schedule inside
the window raises ValueError, is swallowed, and exactly one pending task
remains (the first-scheduled one; it takes no arguments and reads state when
it fires); on the click-marker channel each schedule wraps the event in a
fresh partial, deduplication never applies, and every scheduled click task
stays pending with the arguments of its own call. -/
theorem debounce_dedup_per_channel (p : List Callback) (ev : ℕ) :
    update_histogram (update_histogram p) = update_histogram p ∧
    Callback.histogramCb ∈ update_histogram p ∧
    update_data (update_data p) = update_data p ∧
    Callback.dataCb ∈ update_data p ∧
    move_click_marker ev p = p ++ [Callback.clickCb ev (freshNonce p)] ∧
    clickEvents (move_click_marker ev p) = clickEvents p ++ [ev] := by
  refine ⟨?_, update_histogram_mem p, ?_, update_data_mem p, ?_, ?_⟩
  · exact update_histogram_of_mem (update_histogram p) (update_histogram_mem p)
  · exact update_data_of_mem (update_data p) (update_data_mem p)
  · simp [move_click_marker, addTimeoutCallback, clickCb_fresh_not_mem p ev]
  · simp [move_click_marker, addTimeoutCallback, clickCb_fresh_not_mem p ev,
      clickEvents, List.filterMap_append]

/-! ### The DataSelect pipeline -/

/-- C3: a failed load (NotFound or FormatError) raises before any assignment
in _update_data: the store is not mutated, no recomputation is scheduled, and
running the whole pipeline leaves every derived view bit-identical to its
pre-call state. -/
theorem load_failure_leaves_views_unchanged (st : ViewState) (e : LoadError) :
    update_data' (Except.error e) st = (st, []) ∧
    handleDataSelect (Except.error e) st = st ∧
    (handleDataSelect (Except.error e) st).image = st.image ∧
    (handleDataSelect (Except.error e) st).hist_tops = st.hist_tops ∧
    (handleDataSelect (Except.error e) st).hover_x = st.hover_x ∧
    (handleDataSelect (Except.error e) st).hover_y = st.hover_y ∧
    (handleDataSelect (Except.error e) st).current_val = st.current_val ∧
    (handleDataSelect (Except.error e) st).mean = st.mean ∧
    storeOf (handleDataSelect (Except.error e) st) = storeOf st :=
  ⟨rfl, rfl, rfl, rfl, rfl, rfl, rfl, rfl, rfl⟩

/-- C2 counterexample: the pipeline scheduled by a successful _update_data
does not run in the order overlay, histogram, marker: the two next-tick
callbacks (overlay, marker line) fire before the 10 ms histogram timeout. -/
theorem dataselect_pipeline_order_cex :
    executionOrder (update_data' (Except.ok blankLoad) blankState).2 ≠
      [PTask.updateMapT, PTask.updateHistogramT, PTask.moveHistLineT] := by
  decide

/-- C2 amended: within one DataSelect pipeline the recomputations fire in
the fixed order overlay, then marker line, then histogram (next-tick
callbacks precede the 10 ms timeout), and none of the three recomputation
tasks writes the raster/axis store, so in the absence of an intervening data
update all three observe the snapshot stored by that DataSelect. -/
theorem move_hist_line'_store (s s2 : ViewState)
    (h : move_hist_line' s = some s2) : storeOf s2 = storeOf s := by
  rw [move_hist_line'] at h
  rcases hlook : (s.masked_regrid.get? s.hover_y_idx).bind
      (fun row => row.get? s.hover_x_idx) with _ | v
  · rw [hlook] at h
    cases h
  · rw [hlook] at h
    dsimp only at h
    by_cases hm : v < MIN_VAL
    · rw [if_pos hm] at h
      injection h with h2
      subst h2
      rfl
    · rw [if_neg hm] at h
      injection h with h2
      subst h2
      rfl

theorem dataselect_order_and_snapshot (r : LoadResult) (st : ViewState) :
    executionOrder (update_data' (Except.ok r) st).2 =
      [PTask.updateMapT, PTask.moveHistLineT, PTask.updateHistogramT] ∧
    (∀ t s, storeOf (runTask t s) = storeOf s) := by
  constructor
  · rfl
  · intro t s
    cases t with
    | updateMapT => rfl
    | updateHistogramT => rfl
    | moveHistLineT =>
      simp only [runTask]
      rcases hml : move_hist_line' s with _ | s2
      · simp
      · simp only [Option.getD_some]
        exact move_hist_line'_store s s2 hml

/-- C4 counterexample: _update_data swaps in a raster whose shape disagrees
with the axis lengths, with no ShapeMismatch failure and without retaining
the previous raster. -/
theorem replace_accepts_shape_mismatch :
    (update_data' (Except.ok mismatchedLoad) tinyState).1.xn.length ≠
      ((update_data' (Except.ok mismatchedLoad) tinyState).1.masked_regrid.headD []).length ∧
    (update_data' (Except.ok mismatchedLoad) tinyState).1.masked_regrid ≠
      tinyState.masked_regrid ∧
    (update_data' (Except.ok mismatchedLoad) tinyState).1.masked_regrid =
      mismatchedLoad.masked_regrid := by
  refine ⟨?_, ?_, rfl⟩
  · simp [update_data', mismatchedLoad, tinyState, blankState]
  · simp [update_data', mismatchedLoad, tinyState, blankState]

/-- C4 amended: the replace operation performs no validation at all: every
successful load is swapped into the store unconditionally, even when axis
lengths disagree with the raster shape, and the pipeline continues (the three
recomputation callbacks are always scheduled). -/
theorem replace_swaps_unconditionally (r : LoadResult) (st : ViewState) :
    (update_data' (Except.ok r) st).1.masked_regrid = r.masked_regrid ∧
    (update_data' (Except.ok r) st).1.xn = r.X.headD [] ∧
    (update_data' (Except.ok r) st).1.yn = r.Y.map (fun row => row.headD 0) ∧
    (update_data' (Except.ok r) st).1.valid_date = r.valid_date ∧
    (update_data' (Except.ok r) st).2 =
      [⟨0, 0, PTask.updateMapT⟩, ⟨10, 1, PTask.updateHistogramT⟩,
       ⟨0, 2, PTask.moveHistLineT⟩] :=
  ⟨rfl, rfl, rfl, rfl, rfl⟩

/-- C9 (code bug): after a DataSelect that loads a smaller raster, the
scheduled _move_hist_line reuses the stale hover indices unchanged (no
clamping to the new axis bounds) and indexes the new raster out of bounds:
masked_regrid[3, 3] on a 2x2 raster raises IndexError. -/
theorem stale_marker_index_error :
    (update_data' (Except.ok smallerLoad) staleClickState).1.hover_x_idx = 3 ∧
    (update_data' (Except.ok smallerLoad) staleClickState).1.hover_y_idx = 3 ∧
    (update_data' (Except.ok smallerLoad) staleClickState).1.masked_regrid.length = 2 ∧
    move_hist_line' (update_data' (Except.ok smallerLoad) staleClickState).1 = none := by
  refine ⟨rfl, rfl, rfl, ?_⟩
  rfl

/-! ### The indicator line position -/

/-- C10: for an unmasked selected cell value, _move_hist_line publishes a
line x position inside [MIN_VAL, MAX_VAL]: values at or below MIN_VAL are
displayed at MIN_VAL * 1.05 and values above MAX_VAL at MAX_VAL * 0.99, so
the line never leaves the displayable range of the histogram. -/
theorem hist_line_within_display_range (st : ViewState) (v : ℚ)
    (hcell : (st.masked_regrid.get? st.hover_y_idx).bind
      (fun row => row.get? st.hover_x_idx) = some v)
    (hunmasked : ¬ v < MIN_VAL) :
    move_hist_line' st = some { st with current_val := some v,
                                        line_x := some (histLineX v) } ∧
    MIN_VAL ≤ histLineX v ∧ histLineX v ≤ MAX_VAL ∧
    (v ≤ MIN_VAL → histLineX v = MIN_VAL * (105 / 100)) ∧
    (MAX_VAL < v → histLineX v = MAX_VAL * (99 / 100)) := by
  have h0 : (0 : ℚ) ≤ v := not_lt.mp (by simpa [MIN_VAL] using hunmasked)
  refine ⟨?_, ?_, ?_, ?_, ?_⟩
  · rw [move_hist_line', hcell]
    simp [hunmasked]
  · rw [histLineX, MIN_VAL, MAX_VAL]
    split_ifs with h1 h2
    · norm_num
    · norm_num
    · exact h0
  · rw [histLineX, MIN_VAL, MAX_VAL]
    split_ifs with h1 h2
    · norm_num
    · norm_num
    · exact le_of_not_lt h2
  · intro h
    rw [histLineX, if_pos h]
  · intro h
    have hne : ¬ v ≤ MIN_VAL := by
      rw [MIN_VAL]
      rw [MAX_VAL] at h
      linarith
    rw [histLineX, if_neg hne, if_pos h]

/-- Closed instance of C10 at the 1x1 raster state with cell value 1. -/
theorem hist_line_within_display_range_witness :
    move_hist_line' tinyState = some { tinyState with current_val := some 1,
                                                      line_x := some (histLineX 1) } ∧
    MIN_VAL ≤ histLineX 1 ∧ histLineX 1 ≤ MAX_VAL ∧
    ((1 : ℚ) ≤ MIN_VAL → histLineX 1 = MIN_VAL * (105 / 100)) ∧
    (MAX_VAL < (1 : ℚ) → histLineX 1 = MAX_VAL * (99 / 100)) :=
  hist_line_within_display_range tinyState 1 rfl (by norm_num [MIN_VAL])

end ARTSy
